import Mathlib

/-!
Verification of the numeric-entry control in this repository.

The repository holds two revisions of the NumberInput component in
src/src/NumberInput.js (modelled below as namespaces N1, for the revision
that starts at line 1, and N2, for the revision that starts at line 184),
and the App-level form coordinator in the unnamed App.js source (namespace
App). JavaScript numbers are modelled exactly as decimal fractions (the
type Dec below, with a rational-number denotation), with Option Dec
standing for a JS number where none encodes NaN. Strings are Lean strings;
the handlers are pure state-transition functions on the field state
(buffer text and error flag), returning in addition whether focus was
forced back onto the field and the argument of the change-callback
invocation, if any.
-/

/-- Character class of the JS regex backslash-s (whitespace), used by
removeThousandsSeparators, and the white space skipped by parseFloat. -/
def isJsSpace (c : Char) : Bool :=
  c = ' ' || c = '\t' || c = '\n' || c = '\x0b' || c = '\x0c' || c = '\r' ||
  c = '\u00A0' || c = '\u1680' ||
  (decide ('\u2000' ≤ c) && decide (c ≤ '\u200A')) ||
  c = '\u2028' || c = '\u2029' || c = '\u202F' || c = '\u205F' ||
  c = '\u3000' || c = '\uFEFF'

/-- The JS regex word class backslash-w restricted to one character:
letters, digits and underscore, as used by the word-boundary assertions. -/
def isWordChar (c : Char) : Bool :=
  c.isAlpha || c.isDigit || c = '_'

/-- Numeric value of a list of decimal digit characters (most significant
first); folds exactly as positional notation. -/
def digitsVal (cs : List Char) : Nat :=
  cs.foldl (fun a c => 10 * a + (c.toNat - 48)) 0

/-- Ten to the n as an integer, through the kernel-computable Nat power. -/
def pow10 (n : Nat) : Int := ((10 ^ n : Nat) : Int)

/-- A JS number as this program produces it: the exact decimal fraction
man divided by ten to the exp. Every number the component manipulates
(parsed literals, steps, bounds, sums of those) is such a fraction, so
this representation is exact; it is kept non-normalized so that the
kernel can evaluate all arithmetic. NaN is modelled as none at the use
sites (Option Dec). -/
structure Dec where
  man : Int
  exp : Nat
deriving DecidableEq

namespace Dec

/-- Denotation of a decimal fraction as a rational number. -/
def toRat (x : Dec) : ℚ := (x.man : ℚ) / (10 : ℚ) ^ x.exp

/-- Exact addition: rescale both operands to the larger exponent. -/
def add (x y : Dec) : Dec :=
  ⟨x.man * pow10 (max x.exp y.exp - x.exp) +
   y.man * pow10 (max x.exp y.exp - y.exp), max x.exp y.exp⟩

/-- Exact subtraction: rescale both operands to the larger exponent. -/
def sub (x y : Dec) : Dec :=
  ⟨x.man * pow10 (max x.exp y.exp - x.exp) -
   y.man * pow10 (max x.exp y.exp - y.exp), max x.exp y.exp⟩

/-- Negation. -/
def neg (x : Dec) : Dec := ⟨-x.man, x.exp⟩

/-- Strict order by cross-multiplication. -/
def blt (x y : Dec) : Bool := x.man * pow10 y.exp < y.man * pow10 x.exp

/-- Whether the number is strictly negative. -/
def isNeg (x : Dec) : Bool := x.man < 0

/-- Multiplication by a (possibly negative) power of ten, as applied by a
decimal exponent part: a non-negative exponent scales the mantissa, a
negative one deepens the denominator. -/
def mulPow10 (e : Int) (x : Dec) : Dec :=
  match e with
  | Int.ofNat k => ⟨x.man * pow10 k, x.exp⟩
  | Int.negSucc k => ⟨x.man, x.exp + (k + 1)⟩

end Dec

/-- Decimal digits of a natural number, fuel-based so that the kernel can
evaluate it. The fuel is always sufficient when it exceeds the number. -/
def natDigitsAux : Nat → Nat → List Char
  | 0, _ => []
  | fuel + 1, n =>
    if n < 10 then [Char.ofNat (48 + n)]
    else natDigitsAux fuel (n / 10) ++ [Char.ofNat (48 + n % 10)]

/-- Decimal rendering of a natural number. -/
def natToStr (n : Nat) : String := ⟨natDigitsAux (n + 1) n⟩

/-- Left-pad a digit string with zeros up to length d. -/
def zeroPad (d : Nat) (s : String) : String :=
  ⟨List.replicate (d - s.data.length) '0' ++ s.data⟩

/-- Number.prototype.toFixed for a non-negative decimal fraction: the
integer n closest to the number scaled by ten to the d, ties towards the
larger n (computed as the floor of the scaled number plus one half),
rendered with exactly d digits after the point (no point when d is
zero). -/
def toFixedPos (q : Dec) (d : Nat) : String :=
  let n : Nat := ((2 * (q.man * pow10 d) + pow10 q.exp).fdiv (2 * pow10 q.exp)).toNat
  if d = 0 then natToStr n
  else natToStr (n / 10 ^ d) ++ "." ++ zeroPad d (natToStr (n % 10 ^ d))

/-- Number.prototype.toFixed on the JS number model: NaN renders as the
string NaN; a negative number is rendered as the minus sign followed by
the rendering of its negation, as in the ECMA algorithm. -/
def toFixed (x : Option Dec) (d : Nat) : String :=
  match x with
  | none => "NaN"
  | some q => if q.isNeg then "-" ++ toFixedPos (Dec.neg q) d else toFixedPos q d

/-- Exponent digits with optional sign, as accepted after the letter e in
a JS decimal literal; an absent or empty digit sequence contributes
exponent zero (parseFloat then stops before the letter e). -/
def expSigned (cs : List Char) : Int :=
  match cs with
  | '-' :: r =>
    if (r.takeWhile Char.isDigit) = [] then 0
    else -(digitsVal (r.takeWhile Char.isDigit) : Int)
  | '+' :: r =>
    if (r.takeWhile Char.isDigit) = [] then 0
    else (digitsVal (r.takeWhile Char.isDigit) : Int)
  | _ =>
    if (cs.takeWhile Char.isDigit) = [] then 0
    else (digitsVal (cs.takeWhile Char.isDigit) : Int)

/-- Exponent part of a JS decimal literal at the given position: the
letter e or E followed by an optionally signed digit sequence; anything
else contributes exponent zero. -/
def expPart (cs : List Char) : Int :=
  match cs with
  | 'e' :: r => expSigned r
  | 'E' :: r => expSigned r
  | _ => 0

/-- Model of the JS global parseFloat on decimal literals: skip leading
white space, read an optional sign, integer digits, an optional point with
fraction digits, and an optional exponent, taking the longest valid
prefix; none models NaN (no digits at all). The Infinity literal is not
modelled (it is unreachable from the inputs this component produces). -/
def parseFloatNum (s : String) : Option Dec :=
  let cs := s.data.dropWhile isJsSpace
  let (negSign, cs2) : Bool × List Char :=
    match cs with
    | '-' :: r => (true, r)
    | '+' :: r => (false, r)
    | _ => (false, cs)
  let intDigits := cs2.takeWhile Char.isDigit
  let rest := cs2.dropWhile Char.isDigit
  let (fracDigits, rest2) : List Char × List Char :=
    match rest with
    | '.' :: r => (r.takeWhile Char.isDigit, r.dropWhile Char.isDigit)
    | _ => ([], rest)
  if intDigits = [] ∧ fracDigits = [] then none
  else
    let mantissa : Dec :=
      ⟨(digitsVal intDigits : Int) * pow10 fracDigits.length +
       (digitsVal fracDigits : Int), fracDigits.length⟩
    let scaled := Dec.mulPow10 (expPart rest2) mantissa
    some (if negSign then Dec.neg scaled else scaled)

/-- JS less-than on the number model: any comparison against NaN is false. -/
def jsLt (a b : Option Dec) : Bool :=
  match a, b with
  | some x, some y => Dec.blt x y
  | _, _ => false

/-- JS greater-than on the number model: any comparison against NaN is false. -/
def jsGt (a b : Option Dec) : Bool :=
  match a, b with
  | some x, some y => Dec.blt y x
  | _, _ => false

/-- String.prototype.split with separator dot, on character lists; an
empty input yields one empty part, like the JS method. -/
def splitOnDot : List Char → List (List Char)
  | [] => [[]]
  | c :: rest =>
    if c = '.' then [] :: splitOnDot rest
    else
      match splitOnDot rest with
      | [] => [[c]]
      | p :: ps => (c :: p) :: ps

/-- Array.prototype.join with separator dot, on character lists. -/
def joinDots : List (List Char) → List Char
  | [] => []
  | [p] => p
  | p :: ps => p ++ '.' :: joinDots ps

/-- The lookahead of the separator regex: the remaining text starts with
one or more groups of exactly three digits not followed by a further
digit. -/
def la : List Char → Bool
  | a :: b :: c :: rest =>
    a.isDigit && b.isDigit && c.isDigit &&
    (match rest with
     | [] => true
     | d :: _ => !d.isDigit || la rest)
  | _ => false

/-- Global replacement of the zero-width separator regex by a space: at
every position that is a non-word-boundary and satisfies the lookahead,
a space is inserted into the output; prev is the character to the left of
the current position (none at the start of the text). -/
def insertSeps : Option Char → List Char → List Char
  | _, [] => []
  | prev, c :: rest =>
    let atB : Bool :=
      match prev with
      | none => !(isWordChar c)
      | some p => isWordChar p == isWordChar c
    if atB && la (c :: rest) then ' ' :: c :: insertSeps (some c) rest
    else c :: insertSeps (some c) rest

/-- NumberInput.js addThousandsSeparators: split on the dot, run the
separator regex replacement on the first part only, and rejoin with dots. -/
def addThousandsSeparators (numStr : String) : String :=
  match splitOnDot numStr.data with
  | [] => ⟨[]⟩
  | p :: ps => ⟨joinDots (insertSeps none p :: ps)⟩

/-- NumberInput.js removeThousandsSeparators: delete every character of
the JS whitespace class. -/
def removeThousandsSeparators (numStr : String) : String :=
  ⟨numStr.data.filter (fun c => !isJsSpace c)⟩

/-- String.prototype.startsWith for the one-character prefix equals-sign. -/
def startsWithEq (s : String) : Bool :=
  match s.data with
  | '=' :: _ => true
  | _ => false

/-- String.prototype.slice from index one. -/
def dropFirst (s : String) : String := ⟨s.data.drop 1⟩

/-- NumberInput.js evaluateFormula, identical in both revisions. The
external evaluator capability is a parameter; none models an evaluation
that throws. On a formula the successful result is rendered with toFixed
at the configured decimal count; a non-formula passes through unchanged;
none models the null returned on a failed formula. -/
def evaluateFormula (ev : String → Option Dec) (decimals : Nat)
    (input : String) : Option String :=
  if startsWithEq input then
    match ev (dropFirst input) with
    | some result => some (toFixed (some result) decimals)
    | none => none
  else some input

/-- The transient state a FieldController owns: the buffer text and the
error flag. -/
structure FieldState where
  value : String
  error : Bool
deriving DecidableEq

/-- Observable outcome of one commit handler run: the new field state,
whether focus was forced back onto the field, and the argument the change
callback was invoked with (none when it was not invoked). -/
structure CommitOut where
  state : FieldState
  refocus : Bool
  callback : Option String
deriving DecidableEq

namespace N1

/-- validateMinMax of the first revision (lines 48 to 52): the boolean it
assigns to the error flag. A bound participates only when the prop is not
the star sentinel and parses to a number; comparisons against NaN are
false. -/
def validateMinMax (min max : String) (num : Option Dec) : Bool :=
  let minNum : Option Dec := if min ≠ "*" then parseFloatNum min else none
  let maxNum : Option Dec := if max ≠ "*" then parseFloatNum max else none
  (minNum.isSome && jsLt num minNum) || (maxNum.isSome && jsGt num maxNum)

/-- handleBlur of the first revision (lines 123 to 146). An empty buffer
returns unchanged. Otherwise separators are stripped, the error flag is
cleared, a formula is evaluated (failure sets the error, refocuses and
stops), the working text is parsed, the error flag is recomputed from the
range check, and the formatted value is written back and reported through
the callback. The JS assignment processed = evaluated on line 136 is
modelled with getD: evaluateFormula returns none only for a formula, and
that case has already returned. -/
def handleBlur (ev : String → Option Dec) (min max : String) (decimals : Nat)
    (st : FieldState) : CommitOut :=
  if st.value = "" then ⟨st, false, none⟩
  else
    let processed := removeThousandsSeparators st.value
    let evaluated := evaluateFormula ev decimals processed
    if startsWithEq processed && evaluated.isNone then
      ⟨⟨st.value, true⟩, true, none⟩
    else
      let processed2 := evaluated.getD processed
      let num := parseFloatNum processed2
      let err := validateMinMax min max num
      let formatted := addThousandsSeparators (toFixed num decimals)
      ⟨⟨formatted, err⟩, false, some formatted⟩

/-- handleWheel of the first revision (lines 149 to 164): a no-op when the
step prop is the star sentinel; otherwise the current value (an
unparsable buffer counts as 0, from the or-zero idiom) is moved one step
up when deltaY is negative and one step down otherwise, the error flag is
recomputed from the range check, and the formatted value is written back
and reported through the callback. -/
def handleWheel (min max step : String) (decimals : Nat) (deltaY : Int)
    (st : FieldState) : CommitOut :=
  if step = "*" then ⟨st, false, none⟩
  else
    let current : Dec := (parseFloatNum (removeThousandsSeparators st.value)).getD ⟨0, 0⟩
    let stepValue := parseFloatNum step
    let newValue : Option Dec :=
      match stepValue with
      | none => none
      | some sv => some (if deltaY < 0 then Dec.add current sv else Dec.sub current sv)
    let err := validateMinMax min max newValue
    let formatted := addThousandsSeparators (toFixed newValue decimals)
    ⟨⟨formatted, err⟩, false, some formatted⟩

/-- handleInput of the first revision (lines 110 to 113): the buffer is
replaced verbatim; the error flag is untouched. -/
def handleInput (rawValue : String) (st : FieldState) : FieldState :=
  ⟨rawValue, st.error⟩

/-- handleFocus of the first revision (lines 116 to 120): separators are
stripped from the buffer; the error flag is untouched. -/
def handleFocus (st : FieldState) : FieldState :=
  ⟨removeThousandsSeparators st.value, st.error⟩

end N1

namespace N2

/-- validateMinMax of the second revision (lines 231 to 234): returns
validity, true when no bound is violated; a bound participates only when
the prop is not the star sentinel, and comparisons against NaN are false. -/
def validateMinMax (min max : String) (num : Option Dec) : Bool :=
  !((min ≠ "*" && jsLt num (parseFloatNum min)) ||
    (max ≠ "*" && jsGt num (parseFloatNum max)))

/-- handleBlur of the second revision (lines 286 to 311). There is no
empty-buffer guard: separators are stripped, the error flag is cleared, a
formula is evaluated (failure sets the error, refocuses and stops), the
working text is parsed, and a NaN result or a range violation sets the
error, refocuses and stops; otherwise the formatted value is written back
and reported through the callback. -/
def handleBlur (ev : String → Option Dec) (min max : String) (decimals : Nat)
    (st : FieldState) : CommitOut :=
  let processed := removeThousandsSeparators st.value
  let evaluated := evaluateFormula ev decimals processed
  if startsWithEq processed && evaluated.isNone then
    ⟨⟨st.value, true⟩, true, none⟩
  else
    let processed2 := evaluated.getD processed
    let num := parseFloatNum processed2
    if num.isNone || !(validateMinMax min max num) then
      ⟨⟨st.value, true⟩, true, none⟩
    else
      let formatted := addThousandsSeparators (toFixed num decimals)
      ⟨⟨formatted, false⟩, false, some formatted⟩

end N2

namespace App

/-- A navigation direction, the two values the NumberInput key handler
passes to the coordinator. -/
inductive Dir where
  | prev
  | next
deriving DecidableEq

/-- The ordered field identifiers of App.js. -/
def fieldOrder : List String :=
  ["mainInput", "minInput", "maxInput", "stepInput", "decInput"]

/-- Array.prototype.indexOf: the index of the first occurrence, and minus
one when the element is absent. -/
def jsIndexOf : List String → String → Int
  | [], _ => -1
  | y :: rest, x =>
    if y = x then 0
    else
      let r := jsIndexOf rest x
      if r = -1 then -1 else r + 1

/-- App.js navigateToField (lines 35 to 47): resolve the target index with
truncating JS remainder arithmetic, look the target identifier up in the
order, and focus it when it is mounted; the mounted predicate models the
ref-current check, and the returned value is the identifier of the field
that received focus, none when the request was dropped silently. -/
def navigateToField (mounted : String → Bool) (direction : Dir)
    (currentId : String) : Option String :=
  let currentIndex := jsIndexOf fieldOrder currentId
  let nextIndex : Int :=
    match direction with
    | .prev => (currentIndex - 1 + (fieldOrder.length : Int)).tmod (fieldOrder.length : Int)
    | .next => (currentIndex + 1).tmod (fieldOrder.length : Int)
  let nextField := fieldOrder.getD nextIndex.toNat ""
  if mounted nextField then some nextField else none

end App

/-- An evaluator that fails on every expression; used to instantiate the
external evaluator capability at concrete inputs that are not formulas or
are malformed formulas. -/
def evalFail : String → Option Dec := fun _ => none

/-- C1: the claim states that a blur commit whose working text does not
parse as a number sets the error flag, restores focus, and stops without
writing the buffer or invoking the callback. The second revision does
exactly that, but the first revision has no NaN guard: at the committed
buffer ".." (min, max and step unbounded, two decimals) it leaves the
error flag false, overwrites the buffer with the string NaN and invokes
the callback with it. This theorem evaluates both revisions at that
failing input, together with the facts that the working text is not a
formula and does not parse. -/
theorem c1_nan_commit_divergence :
    N1.handleBlur evalFail "*" "*" 2 ⟨"..", false⟩ =
      ⟨⟨"NaN", false⟩, false, some "NaN"⟩ ∧
    parseFloatNum (removeThousandsSeparators "..") = none ∧
    startsWithEq (removeThousandsSeparators "..") = false ∧
    N2.handleBlur evalFail "*" "*" 2 ⟨"..", false⟩ =
      ⟨⟨"..", true⟩, true, none⟩ := by
  refine ⟨by decide, by decide, by decide, by decide⟩

/-- C2: a blur commit whose working value parses to a number that violates
a configured bound (the bound being present, not the star sentinel) sets
the error flag true, still writes the formatted value back to the buffer,
and invokes the change callback with that formatted string (first
revision, the one whose validateMinMax only tags the field). -/
theorem c2_range_violation_writes_back
    (ev : String → Option Dec) (min max : String) (decimals : Nat)
    (st : FieldState) (w : String) (q : Dec)
    (h1 : evaluateFormula ev decimals (removeThousandsSeparators st.value) = some w)
    (h2 : parseFloatNum w = some q)
    (h3 : (min ≠ "*" ∧ jsLt (some q) (parseFloatNum min) = true) ∨
          (max ≠ "*" ∧ jsGt (some q) (parseFloatNum max) = true)) :
    N1.handleBlur ev min max decimals st =
      ⟨⟨addThousandsSeparators (toFixed (some q) decimals), true⟩, false,
       some (addThousandsSeparators (toFixed (some q) decimals))⟩ := by
  have hv : st.value ≠ "" := by
    intro hv
    rw [hv] at h1
    rw [show removeThousandsSeparators "" = "" from by decide] at h1
    unfold evaluateFormula at h1
    rw [show startsWithEq "" = false from by decide] at h1
    simp only [Bool.false_eq_true, if_false] at h1
    have hw : w = "" := by injection h1 with h; exact h.symm
    rw [hw] at h2
    rw [show parseFloatNum "" = none from by decide] at h2
    exact Option.noConfusion h2
  have herr : N1.validateMinMax min max (some q) = true := by
    unfold N1.validateMinMax
    rcases h3 with ⟨hne, hlt⟩ | ⟨hne, hgt⟩
    · cases hmin : parseFloatNum min with
      | none => rw [hmin] at hlt; exact absurd hlt (by simp [jsLt])
      | some y =>
        rw [hmin] at hlt
        simp only [if_pos hne, hmin, Option.isSome_some, hlt]
        simp
    · cases hmax : parseFloatNum max with
      | none => rw [hmax] at hgt; exact absurd hgt (by simp [jsGt])
      | some y =>
        rw [hmax] at hgt
        simp only [if_pos hne, hmax, Option.isSome_some, hgt]
        simp
  unfold N1.handleBlur
  rw [if_neg hv]
  simp only [h1, Option.isNone_some, Bool.and_false, Bool.false_eq_true, if_false,
    Option.getD_some, h2, herr]

/-- C2 witness: with min ten, max twenty and two decimals, committing the
buffer five yields the formatted buffer 5.00, error flag true, and the
callback invoked with 5.00, exactly the worked example of the claim. -/
theorem c2_range_violation_writes_back_witness :
    (evaluateFormula evalFail 2 (removeThousandsSeparators "5") = some "5" ∧
     parseFloatNum "5" = some ⟨5, 0⟩ ∧
     ("10" ≠ "*" ∧ jsLt (some ⟨5, 0⟩) (parseFloatNum "10") = true)) ∧
    N1.handleBlur evalFail "10" "20" 2 ⟨"5", false⟩ =
      ⟨⟨"5.00", true⟩, false, some "5.00"⟩ := by
  refine ⟨by decide, ?_⟩
  have h := c2_range_violation_writes_back evalFail "10" "20" 2 ⟨"5", false⟩ "5" ⟨5, 0⟩
    (by decide) (by decide) (Or.inl ⟨by decide, by decide⟩)
  rw [h]; decide

/-- C3: the claim states that blurring an empty buffer is a no-op with no
error raised and no callback. The first revision complies (the state is
returned unchanged, so a false flag stays false), but the second revision
has no empty-buffer guard: on the empty buffer it sets the error flag and
forces focus back. This theorem evaluates both revisions on the empty
buffer. -/
theorem c3_empty_buffer_divergence :
    N1.handleBlur evalFail "*" "*" 2 ⟨"", false⟩ = ⟨⟨"", false⟩, false, none⟩ ∧
    N1.handleBlur evalFail "*" "*" 2 ⟨"", true⟩ = ⟨⟨"", true⟩, false, none⟩ ∧
    N2.handleBlur evalFail "*" "*" 2 ⟨"", false⟩ = ⟨⟨"", true⟩, true, none⟩ := by
  refine ⟨by decide, by decide, by decide⟩

/-- C4: a blur commit whose stripped buffer is a formula whose remainder
fails external evaluation sets the error flag, forces focus back, and
returns without writing the buffer and without invoking the callback; and
in the revision the claim cites (the first), this formula-failure branch
is the only path that ever forces focus back, so formula evaluation
failure and numeric parse failure are the only paths that may pin
focus. -/
theorem c4_formula_failure_pins_focus :
    (∀ (ev : String → Option Dec) (min max : String) (decimals : Nat)
       (st : FieldState),
      startsWithEq (removeThousandsSeparators st.value) = true →
      ev (dropFirst (removeThousandsSeparators st.value)) = none →
      N1.handleBlur ev min max decimals st = ⟨⟨st.value, true⟩, true, none⟩) ∧
    (∀ (ev : String → Option Dec) (min max : String) (decimals : Nat)
       (st : FieldState),
      (N1.handleBlur ev min max decimals st).refocus = true →
      startsWithEq (removeThousandsSeparators st.value) = true ∧
      ev (dropFirst (removeThousandsSeparators st.value)) = none) := by
  constructor
  · intro ev min max decimals st h1 h2
    have hv : st.value ≠ "" := by
      intro hv
      rw [hv] at h1
      exact absurd h1 (by decide)
    unfold N1.handleBlur
    rw [if_neg hv]
    simp only [evaluateFormula, h1, h2, if_true, Option.isNone_none, Bool.and_true, if_pos]
  · intro ev min max decimals st h
    unfold N1.handleBlur at h
    by_cases hv : st.value = ""
    · rw [if_pos hv] at h
      exact absurd h (by simp)
    · rw [if_neg hv] at h
      set processed := removeThousandsSeparators st.value with hp
      by_cases hcond : (startsWithEq processed &&
          (evaluateFormula ev decimals processed).isNone) = true
      · have hsw : startsWithEq processed = true := by
          have := hcond
          rw [Bool.and_eq_true] at this
          exact this.1
        have hnone : (evaluateFormula ev decimals processed).isNone = true := by
          have := hcond
          rw [Bool.and_eq_true] at this
          exact this.2
        refine ⟨hsw, ?_⟩
        cases hev : ev (dropFirst processed) with
        | none => rfl
        | some r =>
          rw [evaluateFormula, if_pos hsw, hev] at hnone
          exact absurd hnone (by simp)
      · rw [if_neg hcond] at h
        exact absurd h (by simp)

/-- C4 witness: committing the malformed formula text with a failing
evaluator keeps the buffer, sets the error flag, pins focus and fires no
callback. -/
theorem c4_formula_failure_pins_focus_witness :
    (startsWithEq (removeThousandsSeparators "=2+") = true ∧
     evalFail (dropFirst (removeThousandsSeparators "=2+")) = none) ∧
    N1.handleBlur evalFail "*" "*" 2 ⟨"=2+", false⟩ =
      ⟨⟨"=2+", true⟩, true, none⟩ :=
  ⟨⟨by decide, rfl⟩,
   c4_formula_failure_pins_focus.1 evalFail "*" "*" 2 ⟨"=2+", false⟩ (by decide) rfl⟩

/-- C5: the wheel handler is a no-op when the step prop is the star
sentinel; otherwise, with a parseable step, a wheel-up event (negative
deltaY) adds one step to the current numeric value of the buffer (an
unparsable buffer counting as zero) and a wheel-down event (positive
deltaY) subtracts one, and in both cases the error flag is recomputed
against the bounds, the formatted candidate is written back, and the
callback is invoked with it, independently of blur. -/
theorem c5_wheel_step_commit :
    (∀ (min max : String) (decimals : Nat) (deltaY : Int) (st : FieldState),
      N1.handleWheel min max "*" decimals deltaY st = ⟨st, false, none⟩) ∧
    (∀ (min max step : String) (decimals : Nat) (deltaY : Int)
       (st : FieldState) (sv : Dec),
      step ≠ "*" → parseFloatNum step = some sv → deltaY < 0 →
      N1.handleWheel min max step decimals deltaY st =
        (let nv := Dec.add
          ((parseFloatNum (removeThousandsSeparators st.value)).getD ⟨0, 0⟩) sv
         ⟨⟨addThousandsSeparators (toFixed (some nv) decimals),
           N1.validateMinMax min max (some nv)⟩, false,
          some (addThousandsSeparators (toFixed (some nv) decimals))⟩)) ∧
    (∀ (min max step : String) (decimals : Nat) (deltaY : Int)
       (st : FieldState) (sv : Dec),
      step ≠ "*" → parseFloatNum step = some sv → 0 < deltaY →
      N1.handleWheel min max step decimals deltaY st =
        (let nv := Dec.sub
          ((parseFloatNum (removeThousandsSeparators st.value)).getD ⟨0, 0⟩) sv
         ⟨⟨addThousandsSeparators (toFixed (some nv) decimals),
           N1.validateMinMax min max (some nv)⟩, false,
          some (addThousandsSeparators (toFixed (some nv) decimals))⟩)) := by
  refine ⟨?_, ?_, ?_⟩
  · intro min max decimals deltaY st
    unfold N1.handleWheel
    rw [if_pos rfl]
  · intro min max step decimals deltaY st sv hne hstep hdy
    unfold N1.handleWheel
    rw [if_neg hne]
    simp only [hstep, if_pos hdy]
  · intro min max step decimals deltaY st sv hne hstep hdy
    unfold N1.handleWheel
    rw [if_neg hne]
    have : ¬(deltaY < 0) := by omega
    simp only [hstep, if_neg this]

/-- C5 witness: with step five and two decimals, a wheel-down from the
settled value ten commits 5.00 and a wheel-up from five commits 10.00,
each writing the buffer and firing the callback; the step parses to
five. -/
theorem c5_wheel_step_commit_witness :
    ("5" ≠ "*" ∧ parseFloatNum "5" = some ⟨5, 0⟩ ∧
     ((-1 : Int) < 0) ∧ ((0 : Int) < 1)) ∧
    N1.handleWheel "*" "*" "5" 2 1 ⟨"10", false⟩ =
      ⟨⟨"5.00", false⟩, false, some "5.00"⟩ ∧
    N1.handleWheel "*" "*" "5" 2 (-1) ⟨"5", false⟩ =
      ⟨⟨"10.00", false⟩, false, some "10.00"⟩ := by
  refine ⟨by decide, ?_, ?_⟩
  · have h := c5_wheel_step_commit.2.2 "*" "*" "5" 2 1 ⟨"10", false⟩ ⟨5, 0⟩
      (by decide) (by decide) (by decide)
    rw [h]; decide
  · have h := c5_wheel_step_commit.2.1 "*" "*" "5" 2 (-1) ⟨"5", false⟩ ⟨5, 0⟩
      (by decide) (by decide) (by decide)
    rw [h]; decide

/-- C9: the error flag is recomputed from scratch at the normalization
points: the outcome of a blur on a non-empty buffer and of a wheel with a
bounded step does not depend on the incoming error flag (so the flag is
effectively cleared before re-evaluation), while free-text editing and
focus gain never change the flag (first revision, the cited code). -/
theorem c9_error_flag_discipline :
    (∀ (ev : String → Option Dec) (min max : String) (decimals : Nat)
       (v : String) (e : Bool), v ≠ "" →
      N1.handleBlur ev min max decimals ⟨v, e⟩ =
      N1.handleBlur ev min max decimals ⟨v, false⟩) ∧
    (∀ (min max step : String) (decimals : Nat) (deltaY : Int)
       (v : String) (e : Bool), step ≠ "*" →
      N1.handleWheel min max step decimals deltaY ⟨v, e⟩ =
      N1.handleWheel min max step decimals deltaY ⟨v, false⟩) ∧
    (∀ (rawValue : String) (st : FieldState),
      (N1.handleInput rawValue st).error = st.error) ∧
    (∀ st : FieldState, (N1.handleFocus st).error = st.error) := by
  refine ⟨?_, ?_, fun _ _ => rfl, fun _ => rfl⟩
  · intro ev min max decimals v e hv
    unfold N1.handleBlur
    rw [if_neg hv, if_neg hv]
  · intro min max step decimals deltaY v e hstep
    unfold N1.handleWheel
    rw [if_neg hstep, if_neg hstep]

/-- C9 witness: concrete instances of each conjunct, with the error flag
initially set. -/
theorem c9_error_flag_discipline_witness :
    ("1" ≠ "") ∧
    N1.handleBlur evalFail "*" "*" 2 ⟨"1", true⟩ =
      N1.handleBlur evalFail "*" "*" 2 ⟨"1", false⟩ ∧
    ("5" ≠ "*") ∧
    N1.handleWheel "*" "*" "5" 2 1 ⟨"1", true⟩ =
      N1.handleWheel "*" "*" "5" 2 1 ⟨"1", false⟩ ∧
    (N1.handleInput "7" ⟨"1", true⟩).error = true ∧
    (N1.handleFocus ⟨"1", true⟩).error = true :=
  ⟨by decide,
   c9_error_flag_discipline.1 evalFail "*" "*" 2 "1" true (by decide),
   by decide,
   c9_error_flag_discipline.2.1 "*" "*" "5" 2 1 "1" true (by decide),
   c9_error_flag_discipline.2.2.1 "7" ⟨"1", true⟩,
   c9_error_flag_discipline.2.2.2 ⟨"1", true⟩⟩

/-- An identifier absent from a list is looked up as minus one, like the
JS indexOf. -/
theorem jsIndexOf_not_mem {l : List String} {x : String} (h : x ∉ l) :
    App.jsIndexOf l x = -1 := by
  induction l with
  | nil => rfl
  | cons y rest ih =>
    have hyx : ¬(y = x) := fun he => h (he ▸ List.mem_cons_self y rest)
    simp only [App.jsIndexOf]
    rw [if_neg hyx, ih (fun hm => h (List.mem_cons_of_mem y hm))]
    rfl

/-- C8: for every field of the navigation order (indexed by i), a next
request resolves to the field at index i plus one modulo the field count
and a previous request to the field at index i minus one modulo the field
count (wrapping at both ends), and the resolved field is focused exactly
when it can accept focus, silently dropping the request otherwise. -/
theorem c8_navigation_wraps (mounted : String → Bool) (i : Nat)
    (hi : i < App.fieldOrder.length) :
    (App.navigateToField mounted .next (App.fieldOrder.getD i "") =
      (if mounted (App.fieldOrder.getD ((i + 1) % App.fieldOrder.length) "") then
        some (App.fieldOrder.getD ((i + 1) % App.fieldOrder.length) "") else none)) ∧
    (App.navigateToField mounted .prev (App.fieldOrder.getD i "") =
      (if mounted (App.fieldOrder.getD
          ((i + App.fieldOrder.length - 1) % App.fieldOrder.length) "") then
        some (App.fieldOrder.getD
          ((i + App.fieldOrder.length - 1) % App.fieldOrder.length) "") else none)) := by
  have hi5 : i < 5 := hi
  interval_cases i <;> exact ⟨rfl, rfl⟩

/-- C8 witness: next from the last field wraps to the first, previous
from the first wraps to the last, and an unmounted target makes the
request a silent no-op. -/
theorem c8_navigation_wraps_witness :
    (4 < App.fieldOrder.length) ∧
    App.navigateToField (fun _ => true) .next "decInput" = some "mainInput" ∧
    App.navigateToField (fun _ => true) .prev "mainInput" = some "decInput" ∧
    App.navigateToField (fun _ => false) .next "decInput" = none :=
  ⟨by decide,
   (c8_navigation_wraps (fun _ => true) 4 (by decide)).1,
   (c8_navigation_wraps (fun _ => true) 0 (by decide)).2,
   (c8_navigation_wraps (fun _ => false) 4 (by decide)).1⟩

/-- C10: a navigation request from an identifier that is not in the
navigation order (indexOf yields minus one) is not an error and is not
dropped: next resolves to the first field of the order and previous to
the second-to-last field, and the resolved field is focused when it can
accept focus. -/
theorem c10_unknown_source_navigation (mounted : String → Bool) (id : String)
    (h : id ∉ App.fieldOrder) :
    App.navigateToField mounted .next id =
      (if mounted "mainInput" then some "mainInput" else none) ∧
    App.navigateToField mounted .prev id =
      (if mounted "stepInput" then some "stepInput" else none) := by
  have hidx : App.jsIndexOf App.fieldOrder id = -1 := jsIndexOf_not_mem h
  unfold App.navigateToField
  rw [hidx]
  exact ⟨rfl, rfl⟩

/-- C10 witness: from an unknown identifier, next focuses the first field
and previous focuses the second-to-last field of the five-field order. -/
theorem c10_unknown_source_navigation_witness :
    ("ghost" ∉ App.fieldOrder) ∧
    App.navigateToField (fun _ => true) .next "ghost" = some "mainInput" ∧
    App.navigateToField (fun _ => true) .prev "ghost" = some "stepInput" :=
  ⟨by decide,
   (c10_unknown_source_navigation (fun _ => true) "ghost" (by decide)).1,
   (c10_unknown_source_navigation (fun _ => true) "ghost" (by decide)).2⟩

/-- The spec-side grouping of the digits after the leftmost one: a
separator is inserted before a digit exactly when the digits from it to
the end of the integer portion form complete groups of three. -/
def groupTail : List Char → List Char
  | [] => []
  | c :: rest =>
    if (rest.length + 1) % 3 = 0 then ' ' :: c :: groupTail rest
    else c :: groupTail rest

/-- The formatting algorithm as the spec words it, on the digit list of
the integer portion: insert a single separator before every complete
group of three digits counted from the right end of the portion, and
never before the leftmost group (the head digit is emitted bare). -/
def groupIntDigits : List Char → List Char
  | [] => []
  | c :: rest => c :: groupTail rest

/-- Inserting separators only adds space characters: filtering the
whitespace class out of the output gives the filtered input back. -/
theorem filter_insertSeps (prev : Option Char) (cs : List Char) :
    (insertSeps prev cs).filter (fun c => !isJsSpace c) =
    cs.filter (fun c => !isJsSpace c) := by
  induction cs generalizing prev with
  | nil => rfl
  | cons c rest ih =>
    simp only [insertSeps]
    split
    · simp only [List.filter_cons, show (!isJsSpace ' ') = false from rfl,
        Bool.false_eq_true, if_false, ih]
    · simp only [List.filter_cons, ih]

/-- Splitting on the dot never yields an empty list of parts. -/
theorem splitOnDot_ne_nil (cs : List Char) : splitOnDot cs ≠ [] := by
  induction cs with
  | nil => simp [splitOnDot]
  | cons c rest ih =>
    by_cases hc : c = '.'
    · simp [splitOnDot, hc]
    · simp only [splitOnDot, if_neg hc]
      cases h : splitOnDot rest with
      | nil => simp
      | cons p ps => simp

/-- Joining with dots undoes splitting on the dot. -/
theorem joinDots_splitOnDot (cs : List Char) : joinDots (splitOnDot cs) = cs := by
  induction cs with
  | nil => rfl
  | cons c rest ih =>
    by_cases hc : c = '.'
    · subst hc
      simp only [splitOnDot, if_pos rfl]
      cases h : splitOnDot rest with
      | nil => exact absurd h (splitOnDot_ne_nil rest)
      | cons p ps =>
        rw [h] at ih
        simp [joinDots, ih]
    · simp only [splitOnDot, if_neg hc]
      cases h : splitOnDot rest with
      | nil => exact absurd h (splitOnDot_ne_nil rest)
      | cons p ps =>
        rw [h] at ih
        cases ps with
        | nil =>
          simp only [joinDots] at ih ⊢
          rw [ih]
        | cons q ps' =>
          simp only [joinDots] at ih ⊢
          rw [List.cons_append, ih]

/-- Filtering the whitespace class commutes past the head replacement of
the join: the separator insertion in the first part does not change the
whitespace-free content of the joined text. -/
theorem filter_joinDots_insertSeps (p : List Char) (ps : List (List Char)) :
    (joinDots (insertSeps none p :: ps)).filter (fun c => !isJsSpace c) =
    (joinDots (p :: ps)).filter (fun c => !isJsSpace c) := by
  cases ps with
  | nil => simpa [joinDots] using filter_insertSeps none p
  | cons q ps' =>
    simp only [joinDots]
    rw [List.filter_append, List.filter_append, filter_insertSeps]

/-- C6: for every string with no separator (whitespace-class) characters,
removing separators after adding them gives the string back: separator
removal is the exact inverse of separator insertion on such inputs
(validity as a numeric string is not even needed). -/
theorem c6_separator_roundtrip (s : String)
    (h : ∀ c ∈ s.data, isJsSpace c = false) :
    removeThousandsSeparators (addThousandsSeparators s) = s := by
  cases hs : splitOnDot s.data with
  | nil => exact absurd hs (splitOnDot_ne_nil s.data)
  | cons p ps =>
    have ha : addThousandsSeparators s = ⟨joinDots (insertSeps none p :: ps)⟩ := by
      unfold addThousandsSeparators
      rw [hs]
    rw [ha]
    unfold removeThousandsSeparators
    apply String.ext
    show (joinDots (insertSeps none p :: ps)).filter (fun c => !isJsSpace c) = s.data
    rw [filter_joinDots_insertSeps]
    have hj : joinDots (p :: ps) = s.data := by
      rw [← hs]
      exact joinDots_splitOnDot s.data
    rw [hj]
    apply List.filter_eq_self.mpr
    intro a ha
    rw [h a ha]
    rfl

/-- C6 witness: a concrete separator-free numeric string round-trips. -/
theorem c6_separator_roundtrip_witness :
    (∀ c ∈ ("1234567.89" : String).data, isJsSpace c = false) ∧
    removeThousandsSeparators (addThousandsSeparators "1234567.89") = "1234567.89" :=
  ⟨by decide, c6_separator_roundtrip "1234567.89" (by decide)⟩

/-- On an all-digit text the separator-regex lookahead holds exactly when
the text is non-empty and its length is a multiple of three. -/
theorem la_digits (cs : List Char) (h : ∀ c ∈ cs, c.isDigit = true) :
    la cs = (decide (cs.length % 3 = 0) && !cs.isEmpty) := by
  suffices H : ∀ n (cs : List Char), cs.length ≤ n →
      (∀ c ∈ cs, c.isDigit = true) →
      la cs = (decide (cs.length % 3 = 0) && !cs.isEmpty) from
    H cs.length cs le_rfl h
  intro n
  induction n with
  | zero =>
    intro cs hl _
    cases cs with
    | nil => rfl
    | cons c rest => simp at hl
  | succ n ih =>
    intro cs hl h
    match cs with
    | [] => rfl
    | [a] => rfl
    | [a, b] => rfl
    | a :: b :: c :: rest =>
      have hda : a.isDigit = true := h a (by simp)
      have hdb : b.isDigit = true := h b (by simp)
      have hdc : c.isDigit = true := h c (by simp)
      simp only [la, hda, hdb, hdc, Bool.true_and]
      cases rest with
      | nil => simp
      | cons d rest' =>
        have hdd : d.isDigit = true := h d (by simp)
        show (!d.isDigit || la (d :: rest')) =
          (decide ((a :: b :: c :: d :: rest').length % 3 = 0) &&
           !(a :: b :: c :: d :: rest').isEmpty)
        rw [hdd]
        simp only [Bool.not_true, Bool.false_or]
        have hlen : (d :: rest').length ≤ n := by
          simp only [List.length_cons] at hl ⊢
          omega
        rw [ih (d :: rest') hlen (fun x hx => h x (by simp [hx]))]
        simp only [List.length_cons, List.isEmpty_cons, Bool.not_false, Bool.and_true]
        exact decide_eq_decide.mpr (by omega)

/-- Behind a word character, separator insertion into an all-digit text
is exactly the spec-side grouping of the non-leftmost digits. -/
theorem insertSeps_tail_digits (cs : List Char) (p : Char)
    (hp : isWordChar p = true) (h : ∀ c ∈ cs, c.isDigit = true) :
    insertSeps (some p) cs = groupTail cs := by
  induction cs generalizing p with
  | nil => rfl
  | cons c rest ih =>
    have hdc : c.isDigit = true := h c (by simp)
    have hwc : isWordChar c = true := by
      unfold isWordChar
      rw [hdc]
      simp
    have hrest : ∀ x ∈ rest, x.isDigit = true :=
      fun x hx => h x (List.mem_cons_of_mem c hx)
    have hrec : insertSeps (some c) rest = groupTail rest := ih c hwc hrest
    simp only [insertSeps, hp, hwc]
    rw [la_digits (c :: rest) h]
    by_cases h3 : (rest.length + 1) % 3 = 0
    · simp [groupTail, h3, hrec]
    · simp [groupTail, h3, hrec]

/-- At the start of the text, separator insertion into an all-digit text
is exactly the spec-side grouping: the leftmost digit is never preceded
by a separator. -/
theorem insertSeps_digits (cs : List Char) (h : ∀ c ∈ cs, c.isDigit = true) :
    insertSeps none cs = groupIntDigits cs := by
  cases cs with
  | nil => rfl
  | cons c rest =>
    have hdc : c.isDigit = true := h c (by simp)
    have hwc : isWordChar c = true := by
      unfold isWordChar
      rw [hdc]
      simp
    simp only [insertSeps, hwc, Bool.not_true, Bool.false_and, Bool.false_eq_true,
      if_false, groupIntDigits]
    rw [insertSeps_tail_digits rest c hwc (fun x hx => h x (List.mem_cons_of_mem c hx))]

/-- Splitting a dot-free text on the dot yields that text as the only
part. -/
theorem splitOnDot_no_dot (cs : List Char) (h : '.' ∉ cs) :
    splitOnDot cs = [cs] := by
  induction cs with
  | nil => rfl
  | cons c rest ih =>
    have hc : ¬(c = '.') := fun he => h (he ▸ List.mem_cons_self c rest)
    simp only [splitOnDot, if_neg hc]
    rw [ih (fun hm => h (List.mem_cons_of_mem c hm))]

/-- Splitting a text whose first dot sits after a dot-free prefix peels
the prefix off as the first part. -/
theorem splitOnDot_append (ip fp : List Char) (h : '.' ∉ ip) :
    splitOnDot (ip ++ '.' :: fp) = ip :: splitOnDot fp := by
  induction ip with
  | nil => simp [splitOnDot]
  | cons c rest ih =>
    have hc : ¬(c = '.') := fun he => h (he ▸ List.mem_cons_self c rest)
    show splitOnDot (c :: (rest ++ '.' :: fp)) = (c :: rest) :: splitOnDot fp
    simp only [splitOnDot, if_neg hc]
    rw [ih (fun hm => h (List.mem_cons_of_mem c hm))]

/-- C7: for a numeric string, separator insertion acts only on the
integer portion (the part before the first dot) and equals the spec-side
grouping there: one separator before every complete group of three
digits counted from the right of the integer portion, never before the
leftmost group; the fractional portion is passed through unchanged. The
second conjunct covers strings with no dot at all. -/
theorem c7_integer_part_grouping (ip fp : String)
    (h : ∀ c ∈ ip.data, c.isDigit = true) :
    addThousandsSeparators (ip ++ "." ++ fp) =
      (⟨groupIntDigits ip.data⟩ : String) ++ "." ++ fp ∧
    addThousandsSeparators ip = (⟨groupIntDigits ip.data⟩ : String) := by
  have hnd : '.' ∉ ip.data := by
    intro hm
    have hd := h '.' hm
    exact absurd hd (by decide)
  constructor
  · have hdata : (ip ++ "." ++ fp).data = ip.data ++ '.' :: fp.data := by
      rw [String.data_append, String.data_append]
      simp
    unfold addThousandsSeparators
    rw [hdata, splitOnDot_append ip.data fp.data hnd]
    apply String.ext
    show joinDots (insertSeps none ip.data :: splitOnDot fp.data) =
      ((⟨groupIntDigits ip.data⟩ : String) ++ "." ++ fp).data
    rw [insertSeps_digits ip.data h]
    rw [String.data_append, String.data_append]
    cases hf : splitOnDot fp.data with
    | nil => exact absurd hf (splitOnDot_ne_nil fp.data)
    | cons q qs =>
      have hjq : joinDots (q :: qs) = fp.data := by
        rw [← hf]
        exact joinDots_splitOnDot fp.data
      show joinDots (groupIntDigits ip.data :: q :: qs) = _
      simp only [joinDots]
      rw [hjq]
      simp
  · unfold addThousandsSeparators
    rw [splitOnDot_no_dot ip.data hnd]
    apply String.ext
    show joinDots [insertSeps none ip.data] = groupIntDigits ip.data
    simp only [joinDots]
    exact insertSeps_digits ip.data h

/-- C7 witness: the integer portion 1200 with fraction 50 formats to the
claimed 1 200.50, in both the appended and the literal spelling of the
input. -/
theorem c7_integer_part_grouping_witness :
    (∀ c ∈ ("1200" : String).data, c.isDigit = true) ∧
    addThousandsSeparators ("1200" ++ "." ++ "50") = "1 200.50" ∧
    addThousandsSeparators "1200.50" = "1 200.50" := by
  refine ⟨by decide, ?_, ?_⟩
  · have h := (c7_integer_part_grouping "1200" "50" (by decide)).1
    rw [h]
    decide
  · rw [show ("1200.50" : String) = "1200" ++ "." ++ "50" from by decide]
    have h := (c7_integer_part_grouping "1200" "50" (by decide)).1
    rw [h]
    decide
